import Mathlib

/-!
Verification of the Scientific-Calculator expression engine.

Shallow embedding of the repository's three source files:

* `parser.ts` (tokenizer, shunting-yard transform `toRPN`, postfix
  evaluator `evaluateRPN`, pipeline `Parser.evaluate`);
* `calculator.ts` (the `Calculator` input-session state machine with
  `append`, `backspace`, `clear`, `evaluate` and the private `format`);
* `main.ts` (DOM wiring; out of scope per the specification).

Modelling conventions:

* JavaScript numbers are IEEE-754 doubles.  The development models the
  numeric domain as `Option ℚ`: `some q` is a finite double of exact
  value `q`, `none` models a non-finite double (`NaN`, or `undefined`
  popped from an empty JS array — both compare `false` against any
  numeric bound and propagate through arithmetic, exactly like the
  source's uses of them).  Within the claims checked here every
  arithmetic step is exact in ℚ (no rounding and no overflow occurs on
  the inputs involved), so the rational model coincides with the
  double-valued source on every claim.
* The transcendental routines `Math.sin/cos/tan/log10/log/sqrt/pow`
  are opaque library calls in the source; they are a parameter
  (`MathModel`) of the embedding.  No theorem below depends on their
  values except `pow` at integer exponents, where `Math.pow` is exact;
  the default instance `M0` implements exactly that case.
* Thrown `Error` objects are modelled by the inductive `PError`, one
  constructor per `throw` site, with `PError.message` reproducing the
  thrown message string.
-/

namespace Calc

/-- `type` field of the source's `Token`:
`'number' | 'op' | 'fn' | 'paren' | 'const'`. -/
inductive TokenType where
  | number | op | fn | paren | const
  deriving DecidableEq, Repr

/-- The source's `Token = { type; value: string }`. -/
structure Token where
  type : TokenType
  value : String
  deriving DecidableEq, Repr

/-- One constructor per `throw new Error(...)` site in the source;
`PError.message` reproduces the message string of each site. -/
inductive PError where
  | invalidNumber                      -- 'Invalid number format'
  | unknownIdentifier (id : String)    -- `Unknown identifier: ${id}`
  | invalidCharacter (c : Char)        -- `Invalid character: ${ch}`
  | mismatchedParens                   -- 'Mismatched parentheses'
  | invalidExpression                  -- 'Invalid expression'
  | divisionByZero                     -- 'Division by zero'
  | unknownOperator                    -- 'Unknown operator'
  | invalidFunctionCall                -- 'Invalid function call'
  | logDomain                          -- 'Log domain error'
  | lnDomain                           -- 'Ln domain error'
  | sqrtDomain                         -- 'Sqrt domain error'
  | unknownFunction                    -- 'Unknown function'
  deriving DecidableEq, Repr

/-- The message string carried by each thrown `Error`. -/
def PError.message : PError → String
  | .invalidNumber => "Invalid number format"
  | .unknownIdentifier id => "Unknown identifier: " ++ id
  | .invalidCharacter c => "Invalid character: " ++ String.mk [c]
  | .mismatchedParens => "Mismatched parentheses"
  | .invalidExpression => "Invalid expression"
  | .divisionByZero => "Division by zero"
  | .unknownOperator => "Unknown operator"
  | .invalidFunctionCall => "Invalid function call"
  | .logDomain => "Log domain error"
  | .lnDomain => "Ln domain error"
  | .sqrtDomain => "Sqrt domain error"
  | .unknownFunction => "Unknown function"

/-- The spec's `LexError` kind: the three tokenizer throw sites. -/
def PError.isLex : PError → Bool
  | .invalidNumber => true
  | .unknownIdentifier _ => true
  | .invalidCharacter _ => true
  | _ => false

/-- The spec's `EvalError` kind: the evaluator's stack-arity throw sites
(`'Invalid expression'` for operator underflow and for a final stack of
size ≠ 1, `'Invalid function call'` for function underflow). -/
def PError.isEval : PError → Bool
  | .invalidExpression => true
  | .invalidFunctionCall => true
  | _ => false

/-- The spec's `DomainError` kind: the three domain-guard throw sites. -/
def PError.isDomain : PError → Bool
  | .logDomain => true
  | .lnDomain => true
  | .sqrtDomain => true
  | _ => false

/-- `Except.isOk` as a plain boolean projector. -/
def exOk {ε α : Type} : Except ε α → Bool
  | .ok _ => true
  | .error _ => false

instance {ε α : Type} [DecidableEq ε] [DecidableEq α] : DecidableEq (Except ε α) :=
  fun x y =>
    match x, y with
    | .ok a, .ok b =>
      if h : a = b then .isTrue (by rw [h])
      else .isFalse (by intro hh; cases hh; exact h rfl)
    | .ok _, .error _ => .isFalse (by intro h; cases h)
    | .error _, .ok _ => .isFalse (by intro h; cases h)
    | .error e, .error f =>
      if h : e = f then .isTrue (by rw [h])
      else .isFalse (by intro hh; cases hh; exact h rfl)

/- ## Fixed tables (`parser.ts` lines 10-14) -/

/-- `FUNCTIONS = new Set(['sin','cos','tan','log','ln','sqrt'])`. -/
def FUNCTIONS : List String := ["sin", "cos", "tan", "log", "ln", "sqrt"]

/-- Exact rational value of the IEEE double `Math.PI`
(`884279719003555 * 2^-48`). -/
def piQ : ℚ := mkRat 884279719003555 281474976710656

/-- Exact rational value of the IEEE double `Math.E`
(`6121026514868073 * 2^-51`). -/
def eQ : ℚ := mkRat 6121026514868073 2251799813685248

/-- `CONSTANTS: Record<string, number> = { pi: Math.PI, e: Math.E }`,
as a map to its numeric values: the two own properties.  The property
read `CONSTANTS[name]` for any other name yields a non-number —
`undefined`, or an inherited `Object.prototype` function for the names
of `OBJECT_PROTO_NAMES` — modelled `none` (see `V`; every comparison
and finiteness check the source applies to a stack value treats those
exactly like `NaN`).  The membership test of the tokenizer is the `in`
operator, modelled separately by `jsInConstants`. -/
def CONSTANTS : String → Option ℚ := fun s =>
  if s = "pi" then some piQ
  else if s = "e" then some eQ
  else none

/-- `PRECEDENCE: Record<string, number>`; `none` models the `undefined`
lookup result for a symbol outside the table. -/
def PRECEDENCE : String → Option ℕ := fun s =>
  if s = "+" then some 1
  else if s = "-" then some 1
  else if s = "*" then some 2
  else if s = "/" then some 2
  else if s = "^" then some 3
  else none

/-- `RIGHT_ASSOC = new Set(['^'])`. -/
def RIGHT_ASSOC : String → Bool := fun s => s = "^"

/- ## Tokenizer (`parser.ts` lines 17-56) -/

/-- The character class `[0-9.]` of the tokenizer's number branch. -/
def isNumChar (c : Char) : Bool := c.isDigit || c = '.'

/-- The character class `[a-zA-Z]`. -/
def isAlphaChar (c : Char) : Bool :=
  ('a' ≤ c && c ≤ 'z') || ('A' ≤ c && c ≤ 'Z')

/-- The character class `[a-zA-Z0-9]` of the identifier branch. -/
def isAlnumChar (c : Char) : Bool := isAlphaChar c || c.isDigit

/-- The operator character class `[+\-*/^]`. -/
def isOpChar (c : Char) : Bool :=
  c = '+' || c = '-' || c = '*' || c = '/' || c = '^'

/-- Characters matched by JavaScript `\s` (ECMA-262 `WhiteSpace` plus
`LineTerminator`): tab, line feed, vertical tab, form feed, carriage
return, and `\u0020 \u00a0 \ufeff`, the Unicode `Space_Separator`
category (`\u1680`, `\u2000`-`\u200a`, `\u202f`, `\u205f`,
`\u3000`), and the line/paragraph separators `\u2028`/`\u2029`. -/
def isJsSpace (c : Char) : Bool :=
  c = '\t' || c = '\n' || c = '\x0b' || c = '\x0c' || c = '\r' ||
  c = ' ' || c = '\u00A0' || c = '\uFEFF' ||
  c = '\u1680' || ('\u2000' ≤ c && c ≤ '\u200A') ||
  c = '\u2028' || c = '\u2029' || c = '\u202F' || c = '\u205F' ||
  c = '\u3000'

/-- Number of `'.'` characters in a run; `num.split('.').length > 2`
in the source is equivalent to `countDots ≥ 2`. -/
def countDots (cs : List Char) : ℕ := cs.countP (· = '.')

/-- The whitespace stripping applied by `tokenize` before scanning
(`expr.replace(/\s+/g, '')`). -/
def stripWS (s : String) : List Char := s.data.filter (fun c => !isJsSpace c)

/-- The property names a plain JavaScript object literal inherits from
`Object.prototype` (ECMA-262 §20.2.3, plus the Annex B accessors).
The `in` operator consults the whole prototype chain, so these names
test positive on `CONSTANTS` even though they are not own properties.
The underscore-bearing Annex B names can never occur in a tokenizer
identifier run (`[a-zA-Z][a-zA-Z0-9]*`), but are listed for
completeness. -/
def OBJECT_PROTO_NAMES : List String :=
  ["constructor", "hasOwnProperty", "isPrototypeOf", "propertyIsEnumerable",
   "toLocaleString", "toString", "valueOf",
   "__proto__", "__defineGetter__", "__defineSetter__",
   "__lookupGetter__", "__lookupSetter__"]

/-- The source's constant test `id in CONSTANTS` (line 41): the
JavaScript `in` operator is true for the two own properties `pi` and
`e` AND for every name inherited from `Object.prototype`. -/
def jsInConstants (id : String) : Bool :=
  (CONSTANTS id).isSome || OBJECT_PROTO_NAMES.contains id

/-- The scanning loop of `tokenize` (lines 22-53), after whitespace
removal, one recursive step per produced token.  The source's greedy
run consumption (`while ... num += cleaned[i++]`) is the
`takeWhile`/`dropWhile` span.  The constant test is `jsInConstants`,
reproducing the JavaScript `in` operator's prototype-chain lookup of
line 41.  The first argument is structural fuel so that the definition
evaluates inside the kernel; every step consumes at least one
character, so any fuel above the input length is enough (see
`tokFuel_congr`), and the out-of-fuel branch is unreachable from
`tokenizeChars`. -/
def tokFuel : ℕ → List Char → Except PError (List Token)
  | 0, _ => .ok []
  | _ + 1, [] => .ok []
  | f + 1, c :: cs =>
    if isNumChar c then
      -- number (including decimal)
      let run := c :: cs.takeWhile isNumChar
      let rest := cs.dropWhile isNumChar
      if countDots run ≥ 2 then .error .invalidNumber
      else
        match tokFuel f rest with
        | .ok ts => .ok (⟨.number, String.mk run⟩ :: ts)
        | .error e => .error e
    else if isAlphaChar c then
      -- letters: function name or constant
      let run := c :: cs.takeWhile isAlnumChar
      let rest := cs.dropWhile isAlnumChar
      if FUNCTIONS.contains (String.mk run) then
        match tokFuel f rest with
        | .ok ts => .ok (⟨.fn, String.mk run⟩ :: ts)
        | .error e => .error e
      else if jsInConstants (String.mk run) then
        match tokFuel f rest with
        | .ok ts => .ok (⟨.const, String.mk run⟩ :: ts)
        | .error e => .error e
      else .error (.unknownIdentifier (String.mk run))
    else if c = '(' || c = ')' then
      match tokFuel f cs with
      | .ok ts => .ok (⟨.paren, String.mk [c]⟩ :: ts)
      | .error e => .error e
    else if isOpChar c then
      match tokFuel f cs with
      | .ok ts => .ok (⟨.op, String.mk [c]⟩ :: ts)
      | .error e => .error e
    else .error (.invalidCharacter c)

/-- The scan with adequate fuel. -/
def tokenizeChars (cs : List Char) : Except PError (List Token) :=
  tokFuel (cs.length + 1) cs

namespace Parser

/-- `Parser.tokenize(expr)`: strip whitespace, then scan. -/
def tokenize (expr : String) : Except PError (List Token) :=
  tokenizeChars (stripWS expr)

end Parser

/- ## Shunting-yard transform (`parser.ts` lines 58-104) -/

/-- The pop condition of the operator branch (line 75):
`(RIGHT_ASSOC.has(t.value) && p2 < p1) || (!RIGHT_ASSOC.has(t.value) && p2 <= p1)`.
An out-of-table symbol has `undefined` precedence, and every JavaScript
comparison against `undefined` is false. -/
def popsBefore (tv topv : String) : Bool :=
  match PRECEDENCE topv, PRECEDENCE tv with
  | some p1, some p2 =>
    (RIGHT_ASSOC tv && decide (p2 < p1)) || (!RIGHT_ASSOC tv && decide (p2 ≤ p1))
  | _, _ => false

/-- The `while` loop of the operator branch (lines 69-80): pop functions
and higher-binding operators to the output, stop at a parenthesis or a
lower-binding operator; afterwards the incoming token is pushed (line 81).
Returns the extended output and the new stack.  The stack's top is the
list head. -/
def rpnOp (t : Token) : List Token → List Token → List Token × List Token
  | output, [] => (output, [t])
  | output, top :: rest =>
    if top.type = .fn then rpnOp t (output ++ [top]) rest
    else if top.type = .op then
      if popsBefore t.value top.value then rpnOp t (output ++ [top]) rest
      else (output, t :: top :: rest)
    else (output, t :: top :: rest)

/-- The closing-parenthesis branch (lines 84-93): pop to the output
until an opening parenthesis is found and discarded; error if the stack
empties first; then pop a function token, if one is on top, to the
output. -/
def rpnClose : List Token → List Token → Except PError (List Token × List Token)
  | _, [] => .error .mismatchedParens
  | output, top :: rest =>
    if top.type = .paren ∧ top.value = "(" then
      match rest with
      | f :: rest' =>
        if f.type = .fn then .ok (output ++ [f], rest')
        else .ok (output, rest)
      | [] => .ok (output, [])
    else rpnClose (output ++ [top]) rest

/-- The final drain (lines 97-101): pop the remaining stack to the
output; a remaining parenthesis is a mismatch. -/
def rpnFlush : List Token → List Token → Except PError (List Token)
  | output, [] => .ok output
  | output, top :: rest =>
    if top.type = .paren then .error .mismatchedParens
    else rpnFlush (output ++ [top]) rest

/-- The token loop of `toRPN` (lines 62-95).  A `paren` token whose
value is not `'('` takes the `else` branch of line 83-93, exactly as in
the source (which compares only against `'('`). -/
def rpnGo : List Token → List Token → List Token → Except PError (List Token)
  | [], output, ops => rpnFlush output ops
  | t :: ts, output, ops =>
    if t.type = .number ∨ t.type = .const then rpnGo ts (output ++ [t]) ops
    else if t.type = .fn then rpnGo ts output (t :: ops)
    else if t.type = .op then
      match rpnOp t output ops with
      | (output', ops') => rpnGo ts output' ops'
    else if t.value = "(" then rpnGo ts output (t :: ops)
    else
      match rpnClose output ops with
      | .ok (output', ops') => rpnGo ts output' ops'
      | .error e => .error e

namespace Parser

/-- `Parser.toRPN(tokens)`. -/
def toRPN (tokens : List Token) : Except PError (List Token) :=
  rpnGo tokens [] []

end Parser

/- ## Exact rational arithmetic for the value model

The arithmetic below is kernel-computable exact rational arithmetic
built directly on `mkRat` (the library's `Rat.add` etc. are
`@[irreducible]`); `q_spec` lemmas below relate each operation to the
corresponding field operation of `ℚ`. -/

/-- Exact rational addition. -/
def qadd (a b : ℚ) : ℚ := mkRat (a.num * b.den + b.num * a.den) (a.den * b.den)

/-- Exact rational subtraction. -/
def qsub (a b : ℚ) : ℚ := mkRat (a.num * b.den - b.num * a.den) (a.den * b.den)

/-- Exact rational multiplication. -/
def qmul (a b : ℚ) : ℚ := mkRat (a.num * b.num) (a.den * b.den)

/-- Exact rational reciprocal (`0` maps to `0`; the evaluator never
divides by zero thanks to the source's guard). -/
def qinv (b : ℚ) : ℚ :=
  if b.num < 0 then mkRat (-(b.den : ℤ)) b.num.natAbs
  else mkRat (b.den : ℤ) b.num.natAbs

/-- Exact rational division. -/
def qdiv (a b : ℚ) : ℚ := qmul a (qinv b)

/-- Exact rational power with natural exponent. -/
def qpowN (a : ℚ) (n : ℕ) : ℚ := mkRat (a.num ^ n) (a.den ^ n)


/- ## Value model and postfix evaluator (`parser.ts` lines 106-145) -/

/-- A JavaScript number on the evaluator's value stack: `some q` is a
finite double of exact value `q`; `none` models a non-numeric or
non-finite value — `NaN`, or the inherited `Object.prototype` function
pushed for a constant token outside `{pi, e}` (reachable only through
the `in`-operator quirk, see `jsInConstants`).  Every comparison the
source applies to a stack value (`=== 0`, `<= 0`, `< 0`,
`Number.isFinite`) treats such values exactly like `NaN`; `+` on a
function value would concatenate strings in JavaScript rather than
yield `NaN`, but no theorem below performs arithmetic on a
non-data-model constant (the quantified evaluator statements assume
`Token.WF`).  `undefined`, the result of popping an empty JS array, is
handled separately by the pattern matches below, as in the source's
explicit `=== undefined` checks. -/
abbrev V : Type := Option ℚ

/-- `b === 0` on a stack value (false for `NaN`). -/
def vEqZero : V → Bool
  | some q => q.num == 0
  | none => false

/-- `a <= 0` on a stack value (false for `NaN`). -/
def vLeZero : V → Bool
  | some q => q.num ≤ 0
  | none => false

/-- `a < 0` on a stack value (false for `NaN`). -/
def vLtZero : V → Bool
  | some q => q.num < 0
  | none => false

/-- NaN-propagating addition. -/
def vAdd : V → V → V
  | some a, some b => some (qadd a b)
  | _, _ => none

/-- NaN-propagating subtraction. -/
def vSub : V → V → V
  | some a, some b => some (qsub a b)
  | _, _ => none

/-- NaN-propagating multiplication. -/
def vMul : V → V → V
  | some a, some b => some (qmul a b)
  | _, _ => none

/-- NaN-propagating division (only reached with a divisor that is not
exactly zero, thanks to the guard at line 119). -/
def vDiv : V → V → V
  | some a, some b => some (qdiv a b)
  | _, _ => none

/-- The opaque unary `Math` routines used by the evaluator, and
`Math.pow`.  The source delegates to the JavaScript `Math` library;
every general theorem below holds for an arbitrary model.  `pow` may
return `none`: `Math.pow` can produce `NaN`/`Infinity`, or an
irrational double that the rational model does not represent. -/
structure MathModel where
  sin : ℚ → ℚ
  cos : ℚ → ℚ
  tan : ℚ → ℚ
  log10 : ℚ → ℚ
  log : ℚ → ℚ
  sqrt : ℚ → ℚ
  pow : ℚ → ℚ → Option ℚ

/-- Default model.  `pow` is exact for integer exponents (where
`Math.pow` is exact on the ranges exercised by the claims: its result
is an exactly representable double); a zero base with a negative
exponent gives `Infinity` (`none`), a non-integer exponent generally an
irrational value (`none`).  The unary routines return irrational
doubles for almost all inputs, unrepresentable in ℚ; they are fixed to
`0` here, and no theorem of this development depends on them. -/
def M0 : MathModel where
  sin := fun _ => 0
  cos := fun _ => 0
  tan := fun _ => 0
  log10 := fun _ => 0
  log := fun _ => 0
  sqrt := fun _ => 0
  pow := fun a b =>
    if b.den = 1 then
      if 0 ≤ b.num then some (qpowN a b.num.toNat)
      else if a.num = 0 then none
      else some (qinv (qpowN a (-b.num).toNat))
    else none

/-- `Number(t.value)` for a number token, restricted to the strings the
data model allows for `Number` tokens (digits and dots).  `none` models
`NaN`, produced when the text has two or more dots or is a bare `"."`;
`Number('')` is `0` in JavaScript and `digitsVal [] = 0` here.  For a
string containing other characters the model returns `none` (`NaN`);
this is faithful for every string a `Number` token can carry under the
spec's data model (JavaScript's exotic coercions for hex or exponent
notation are not representable as tokenizer output). -/
def digitsVal (cs : List Char) : ℕ :=
  cs.foldl (fun a c => 10 * a + (c.toNat - 48)) 0

/-- See `digitsVal`. -/
def parseNum (s : String) : V :=
  let cs := s.data
  if cs.all isNumChar then
    if countDots cs ≥ 2 then none
    else if cs.all (· = '.') ∧ cs ≠ [] then none
    else
      let intPart := cs.takeWhile (· ≠ '.')
      let fracPart := (cs.dropWhile (· ≠ '.')).drop 1
      some (qadd (digitsVal intPart) (qdiv (digitsVal fracPart) (qpowN 10 fracPart.length)))
  else none

/-- One iteration of the `for` loop of `evaluateRPN` (lines 108-141),
acting on the value stack (head = top).  Popping two values from a
stack of fewer than two is JavaScript `undefined`, caught by the
`=== undefined` checks; a `paren` token matches no branch of the
source's `if`/`else if` chain and is skipped. -/
def evalStep (M : MathModel) (stack : List V) (t : Token) : Except PError (List V) :=
  match t.type with
  | .number => .ok (parseNum t.value :: stack)
  | .const => .ok (CONSTANTS t.value :: stack)
  | .op =>
    match stack with
    | b :: a :: rest =>
      if t.value = "+" then .ok (vAdd a b :: rest)
      else if t.value = "-" then .ok (vSub a b :: rest)
      else if t.value = "*" then .ok (vMul a b :: rest)
      else if t.value = "/" then
        if vEqZero b then .error .divisionByZero
        else .ok (vDiv a b :: rest)
      else if t.value = "^" then
        .ok ((match a, b with
              | some x, some y => M.pow x y
              | _, _ => none) :: rest)
      else .error .unknownOperator
    | _ => .error .invalidExpression
  | .fn =>
    match stack with
    | a :: rest =>
      if t.value = "sin" then .ok (a.map M.sin :: rest)
      else if t.value = "cos" then .ok (a.map M.cos :: rest)
      else if t.value = "tan" then .ok (a.map M.tan :: rest)
      else if t.value = "log" then
        if vLeZero a then .error .logDomain else .ok (a.map M.log10 :: rest)
      else if t.value = "ln" then
        if vLeZero a then .error .lnDomain else .ok (a.map M.log :: rest)
      else if t.value = "sqrt" then
        if vLtZero a then .error .sqrtDomain else .ok (a.map M.sqrt :: rest)
      else .error .unknownFunction
    | [] => .error .invalidFunctionCall
  | .paren => .ok stack

/-- The whole `for` loop: thread the stack through `evalStep`. -/
def runRPN (M : MathModel) : List Token → List V → Except PError (List V)
  | [], stack => .ok stack
  | t :: ts, stack =>
    match evalStep M stack t with
    | .ok stack' => runRPN M ts stack'
    | .error e => .error e

namespace Parser

/-- `Parser.evaluateRPN(rpn)` (lines 106-145): run the loop from an
empty stack, then require exactly one remaining value (lines 143-144).
-/
def evaluateRPN (M : MathModel) (rpn : List Token) : Except PError V :=
  match runRPN M rpn [] with
  | .ok [v] => .ok v
  | .ok _ => .error .invalidExpression
  | .error e => .error e

/-- `Parser.evaluate(expr)` (lines 147-151): the three-stage pipeline.
-/
def evaluate (M : MathModel) (expr : String) : Except PError V :=
  match tokenize expr with
  | .error e => .error e
  | .ok tokens =>
    match toRPN tokens with
    | .error e => .error e
    | .ok rpn => evaluateRPN M rpn

end Parser

/- ## Number formatting (`calculator.ts` lines 38-42)

`format` renders via `toPrecision(12)` (the `Number.parseFloat(String(n))`
round-trip is the identity on numbers) and then applies two regex
substitutions.  `toPrecision` is specified by ECMA-262
`Number.prototype.toPrecision`; the model below implements that
algorithm for exact rationals with p = 12.  On every value reached by a
claim the double and the exact rational round to the same 12
significant digits. -/

/-- Little-endian decimal digits, with structural fuel so the kernel
can evaluate it (fuel 40 covers every value below `10^40`; the
formatter only ever feeds it 12-digit numbers and small exponents). -/
def natDigitsRev : ℕ → ℕ → List ℕ
  | 0, _ => []
  | f + 1, n => if n = 0 then [] else n % 10 :: natDigitsRev f (n / 10)

/-- Number of decimal digits (`0` for `0`). -/
def numDigits (n : ℕ) : ℕ := (natDigitsRev 40 n).length

/-- The character of a decimal digit. -/
def digitChar (d : ℕ) : Char := Char.ofNat (48 + d)

/-- Decimal string of a natural number (empty for `0`; the formatter
never prints a bare zero through this function). -/
def natDigitsStr (n : ℕ) : String :=
  String.mk ((natDigitsRev 40 n).reverse.map digitChar)

/-- Rational negation. -/
def qneg (a : ℚ) : ℚ := mkRat (-a.num) a.den

/-- `10^k` for an integer `k`. -/
def pow10 (k : ℤ) : ℚ :=
  if 0 ≤ k then qpowN 10 k.toNat else qinv (qpowN 10 (-k).toNat)

/-- Floor of a nonnegative rational, as a natural number. -/
def qfloorPos (q : ℚ) : ℕ := q.num.toNat / q.den

/-- `⌊log₁₀ x⌋` for positive `x = a/b`: the digit-count difference of
`a` and `b` is within one of the answer, and the exact comparison
`10^g ≤ a/b` (cross-multiplied into ℕ) settles it. -/
def floorLog10 (x : ℚ) : ℤ :=
  let a := x.num.toNat
  let b := x.den
  let g : ℤ := (numDigits a : ℤ) - (numDigits b : ℤ)
  if 0 ≤ g then (if b * 10 ^ g.toNat ≤ a then g else g - 1)
  else (if b ≤ a * 10 ^ (-g).toNat then g else g - 1)

/-- ECMA-262 `Number.prototype.toPrecision` with `p = 12` for a
positive rational: choose `e` and a 12-digit integer `n` with
`n · 10^(e-11)` nearest to `x` (ties to the larger `n`), then lay out
fixed or exponential notation. -/
def toPrecision12pos (x : ℚ) : String :=
  let e0 := floorLog10 x
  let n0 := qfloorPos (qadd (qmul x (pow10 (11 - e0))) (mkRat 1 2))
  let n := if n0 = 10 ^ 12 then 10 ^ 11 else n0
  let e := if n0 = 10 ^ 12 then e0 + 1 else e0
  let ds := natDigitsStr n
  if 12 ≤ e ∨ e < -6 then
    String.mk (ds.data.take 1) ++ "." ++ String.mk (ds.data.drop 1) ++
      "e" ++ (if 0 ≤ e then "+" else "-") ++ natDigitsStr e.natAbs
  else if e = 11 then ds
  else if 0 ≤ e then
    String.mk (ds.data.take (e.toNat + 1)) ++ "." ++ String.mk (ds.data.drop (e.toNat + 1))
  else
    "0." ++ String.mk (List.replicate ((-e).toNat - 1) '0') ++ ds

/-- `n.toPrecision(12)`: zero renders as `"0."` plus eleven zeros, a
negative value as `"-"` plus the rendering of its absolute value. -/
def toPrecision12 (x : ℚ) : String :=
  if x.num = 0 then "0.00000000000"
  else if x.num < 0 then "-" ++ toPrecision12pos (qneg x)
  else toPrecision12pos x

/-- The lookbehind `(?<=\.[0-9]*[1-9])` of the first substitution: the
text before the match must end with a dot, then digits, ending in a
nonzero digit. -/
def lookbehind1 (pre : List Char) : Bool :=
  match pre.reverse with
  | [] => false
  | d :: _ =>
    ('1' ≤ d && d ≤ '9') && ((pre.reverse.dropWhile Char.isDigit).head? == some '.')

/-- `s.replace(/(?:\.0+|(?<=\.[0-9]*[1-9])0+)$/, '')`: delete the
leftmost suffix that is either a dot followed only by zeros, or a
nonempty zero run preceded by `.digits…nonzero`; `pre` is the text
scanned so far, `rem` the rest. -/
def r1go (pre rem : List Char) : List Char :=
  match rem with
  | [] => pre
  | c :: cs =>
    if c = '.' ∧ cs ≠ [] ∧ cs.all (· = '0') then pre
    else if c = '0' ∧ cs.all (· = '0') ∧ lookbehind1 pre then pre
    else r1go (pre ++ [c]) cs

/-- String wrapper for the first substitution. -/
def r1str (s : String) : String := String.mk (r1go [] s.data)

/-- `s.replace(/\.?0+$/, '')`: delete the trailing zero run, if any,
together with a dot standing immediately before it. -/
def r2str (s : String) : String :=
  let r := s.data.reverse
  if r.head? == some '0' then
    match r.dropWhile (· = '0') with
    | '.' :: rest => String.mk rest.reverse
    | rest => String.mk rest.reverse
  else s

/- ## Input session (`calculator.ts`) -/

/-- The `Calculator` class state: the private `input` buffer.  Each
operation returns the new state together with the argument passed to
the `onChange` display callback (`none` when the callback is not
invoked). -/
structure Calculator where
  input : String
  deriving DecidableEq, Repr

namespace Calculator

/-- The character class of `append`'s filter
`/^[0-9a-zA-Z+\-*/^().]*$/`. -/
def allowedChar (c : Char) : Bool :=
  c.isDigit || isAlphaChar c || isOpChar c || c = '(' || c = ')' || c = '.'

/-- `this.input || '0'`: the empty buffer displays (and evaluates) as
`"0"`. -/
def display (s : String) : String := if s = "" then "0" else s

/-- `append(value)` (lines 10-15): silently ignore a fragment with a
character outside the allowed class, otherwise concatenate and notify.
-/
def append (st : Calculator) (value : String) : Calculator × Option String :=
  if value.data.all allowedChar then
    (⟨st.input ++ value⟩, some (display (st.input ++ value)))
  else (st, none)

/-- `backspace()` (lines 17-20): `slice(0, -1)` drops the last
character (no-op on an empty buffer). -/
def backspace (st : Calculator) : Calculator × Option String :=
  (⟨st.input.dropRight 1⟩, some (display (st.input.dropRight 1)))

/-- `clear()` (lines 22-25). -/
def clear (_st : Calculator) : Calculator × Option String :=
  (⟨""⟩, some "0")

/-- `format(n)` (lines 38-42): `Number.parseFloat(String(n))` is the
identity on a number, then `toPrecision(12)` and the two
substitutions. -/
def format (n : ℚ) : String := r2str (r1str (toPrecision12 n))

/-- `evaluate()` (lines 27-36): run the pipeline over the buffer (the
empty buffer evaluates as `"0"`); on success replace the buffer by the
formatted result (`"Error"` for a non-finite result) and display it;
on any thrown error leave the buffer alone and display the prefixed
message. -/
def evaluate (M : MathModel) (st : Calculator) : Calculator × Option String :=
  match Parser.evaluate M (display st.input) with
  | .ok r =>
    let out := match r with
      | some q => format q
      | none => "Error"
    (⟨out⟩, some out)
  | .error e => (st, some ("Error: " ++ e.message))

end Calculator

/- ## Predicates used by the claim statements -/

/-- Does the computation fail with an error of the given kind? -/
def exErrP {α : Type} (p : PError → Bool) : Except PError α → Bool
  | .error e => p e
  | .ok _ => false

/-- Data-model well-formedness of a token (spec §3): a `Number` token
carries digits with at most one dot, and operator, function, constant
and parenthesis tokens draw their text from the fixed closed
vocabularies.  Every token the tokenizer produces is of this shape. -/
def Token.WF (t : Token) : Bool :=
  match t.type with
  | .number => t.value.data.all isNumChar && decide (countDots t.value.data ≤ 1)
  | .op => ["+", "-", "*", "/", "^"].contains t.value
  | .fn => FUNCTIONS.contains t.value
  | .const => ["pi", "e"].contains t.value
  | .paren => ["(", ")"].contains t.value

/-- Number of parenthesis tokens on the operator stack. -/
def pcount (ops : List Token) : ℕ := ops.countP (fun t => t.type == .paren)

/-- Stack invariant of `toRPN`: a closing parenthesis is never pushed,
so every parenthesis on the operator stack is an opening one. -/
def opsOk (ops : List Token) : Prop :=
  ∀ t ∈ ops, t.type = .paren → t.value = "("

/-- An opening parenthesis token (the source compares `value === '('`).
-/
def isOpenTok (t : Token) : Bool := t.type == .paren && t.value == "("

/-- A parenthesis token that is not an opening one; for well-formed
tokens this is exactly `')'`. -/
def isCloseTok (t : Token) : Bool := t.type == .paren && !(t.value == "(")

/-- Dyck-counter balance check of the parenthesis nesting in a token
sequence: a closing parenthesis at depth zero, or a positive depth at
the end, is unbalanced. -/
def balAux : ℕ → List Token → Bool
  | d, [] => d == 0
  | d, t :: ts =>
    if isOpenTok t then balAux (d + 1) ts
    else if isCloseTok t then decide (0 < d) && balAux (d - 1) ts
    else balAux d ts

/-- Balanced parenthesis nesting. -/
def balanced (ts : List Token) : Bool := balAux 0 ts

/-- No parenthesis token in the sequence. -/
def noParen (ts : List Token) : Bool := ts.all (fun t => !(t.type == .paren))

/-- The lexical failure condition as claim C6 states it, structurally
over the whitespace-stripped text: scanning maximal runs left to right,
the text is rejected exactly when a digit/dot run has two or more dots,
a letter-initial alphanumeric run is neither a recognized function nor
a recognized constant name — the spec's closed vocabulary, `pi` and `e`
only — or a character outside digits/letters/dot/operators/parentheses
appears.  (Same structural fuel device as `tokFuel`.) -/
def badFuel : ℕ → List Char → Bool
  | 0, _ => false
  | _ + 1, [] => false
  | f + 1, c :: cs =>
    if isNumChar c then
      decide (countDots (c :: cs.takeWhile isNumChar) ≥ 2) || badFuel f (cs.dropWhile isNumChar)
    else if isAlphaChar c then
      (!(FUNCTIONS.contains (String.mk (c :: cs.takeWhile isAlnumChar)) ||
          (CONSTANTS (String.mk (c :: cs.takeWhile isAlnumChar))).isSome)) ||
        badFuel f (cs.dropWhile isAlnumChar)
    else if c = '(' || c = ')' then badFuel f cs
    else if isOpChar c then badFuel f cs
    else true

/-- See `badFuel`. -/
def lexBad (cs : List Char) : Bool := badFuel (cs.length + 1) cs

/-- The rejection condition the CODE implements: as `badFuel`, except
that an identifier run also passes when the `in` operator finds it on
`Object.prototype` (`jsInConstants`).  `badFuel` and `jsBadFuel`
disagree exactly on the inherited names, e.g. `"toString"`. -/
def jsBadFuel : ℕ → List Char → Bool
  | 0, _ => false
  | _ + 1, [] => false
  | f + 1, c :: cs =>
    if isNumChar c then
      decide (countDots (c :: cs.takeWhile isNumChar) ≥ 2) || jsBadFuel f (cs.dropWhile isNumChar)
    else if isAlphaChar c then
      (!(FUNCTIONS.contains (String.mk (c :: cs.takeWhile isAlnumChar)) ||
          jsInConstants (String.mk (c :: cs.takeWhile isAlnumChar)))) ||
        jsBadFuel f (cs.dropWhile isAlnumChar)
    else if c = '(' || c = ')' then jsBadFuel f cs
    else if isOpChar c then jsBadFuel f cs
    else true

/-- See `jsBadFuel`. -/
def jsLexBad (cs : List Char) : Bool := jsBadFuel (cs.length + 1) cs

/- ## Support lemmas -/

/-- The fuel argument is irrelevant as long as it exceeds the input
length. -/
theorem tokFuel_congr :
    ∀ (f g : ℕ) (cs : List Char), cs.length < f → cs.length < g →
      tokFuel f cs = tokFuel g cs := by
  intro f
  induction f with
  | zero => intro g cs h; exact absurd h (Nat.not_lt_zero _)
  | succ f ih =>
    intro g cs hf hg
    cases g with
    | zero => exact absurd hg (Nat.not_lt_zero _)
    | succ g =>
      cases cs with
      | nil => rfl
      | cons c cs =>
        have hlen : ∀ p : Char → Bool, (cs.dropWhile p).length < f := by
          intro p
          exact Nat.lt_of_le_of_lt (List.Sublist.length_le (List.dropWhile_sublist p))
            (Nat.lt_of_succ_lt_succ hf)
        have hlen' : ∀ p : Char → Bool, (cs.dropWhile p).length < g := by
          intro p
          exact Nat.lt_of_le_of_lt (List.Sublist.length_le (List.dropWhile_sublist p))
            (Nat.lt_of_succ_lt_succ hg)
        have hcs : cs.length < f := Nat.lt_of_succ_lt_succ hf
        have hcs' : cs.length < g := Nat.lt_of_succ_lt_succ hg
        simp only [tokFuel]
        rw [ih g (cs.dropWhile isNumChar) (hlen _) (hlen' _),
          ih g (cs.dropWhile isAlnumChar) (hlen _) (hlen' _),
          ih g cs hcs hcs']

theorem qadd_spec (a b : ℚ) : qadd a b = a + b := by
  rw [qadd, Rat.mkRat_eq_div]
  push_cast
  conv_rhs => rw [← Rat.num_div_den a, ← Rat.num_div_den b]
  have ha : (a.den : ℚ) ≠ 0 := by positivity
  have hb : (b.den : ℚ) ≠ 0 := by positivity
  field_simp
  try ring

theorem qsub_spec (a b : ℚ) : qsub a b = a - b := by
  rw [qsub, Rat.mkRat_eq_div]
  push_cast
  conv_rhs => rw [← Rat.num_div_den a, ← Rat.num_div_den b]
  have ha : (a.den : ℚ) ≠ 0 := by positivity
  have hb : (b.den : ℚ) ≠ 0 := by positivity
  field_simp
  try ring

theorem qmul_spec (a b : ℚ) : qmul a b = a * b := by
  rw [qmul, Rat.mkRat_eq_div]
  push_cast
  conv_rhs => rw [← Rat.num_div_den a, ← Rat.num_div_den b]
  rw [div_mul_div_comm]

theorem qinv_spec (b : ℚ) : qinv b = b⁻¹ := by
  rw [qinv]
  rcases lt_trichotomy b.num 0 with h | h | h
  · rw [if_pos h, Rat.mkRat_eq_div]
    conv_rhs => rw [← Rat.num_div_den b]
    rw [inv_div]
    push_cast [Int.cast_natAbs]
    rw [abs_of_neg (by exact_mod_cast h : (b.num : ℚ) < 0)]
    rw [div_neg, neg_div, neg_neg]
  · rw [if_neg (by omega), Rat.mkRat_eq_div]
    have hb : b = 0 := by
      have := Rat.num_eq_zero.mp h
      simpa using this
    simp [hb, h]
  · rw [if_neg (by omega), Rat.mkRat_eq_div]
    conv_rhs => rw [← Rat.num_div_den b]
    rw [inv_div]
    push_cast [Int.cast_natAbs]
    rw [abs_of_pos (by exact_mod_cast h : (0 : ℚ) < b.num)]

theorem qdiv_spec (a b : ℚ) : qdiv a b = a / b := by
  rw [qdiv, qmul_spec, qinv_spec, div_eq_mul_inv]

theorem qpowN_spec (a : ℚ) (n : ℕ) : qpowN a n = a ^ n := by
  rw [qpowN, Rat.mkRat_eq_div]
  push_cast
  conv_rhs => rw [← Rat.num_div_den a]
  rw [div_pow]


theorem qnum_nonpos (q : ℚ) : q.num ≤ 0 ↔ q ≤ 0 := by
  have h := Rat.num_nonneg (q := -q)
  rw [Rat.num_neg_eq_neg_num] at h
  constructor
  · intro hq
    have h0 : (0 : ℤ) ≤ -q.num := by omega
    have := h.mp h0
    linarith
  · intro hq
    have h0 : (0 : ℚ) ≤ -q := by linarith
    have := h.mpr h0
    omega

theorem qnum_neg_iff (q : ℚ) : q.num < 0 ↔ q < 0 := by
  have h := Rat.num_nonneg (q := q)
  constructor
  · intro hq
    by_contra hc
    push_neg at hc
    have := h.mpr hc
    omega
  · intro hq
    by_contra hc
    push_neg at hc
    have := h.mp hc
    linarith

theorem vEqZero_iff (v : V) : vEqZero v = true ↔ v = some 0 := by
  cases v with
  | none => simp [vEqZero]
  | some q => simp [vEqZero, Rat.num_eq_zero]

theorem vLeZero_iff (v : V) : vLeZero v = true ↔ ∃ q, v = some q ∧ q ≤ 0 := by
  cases v with
  | none => simp [vLeZero]
  | some q => simp [vLeZero, qnum_nonpos]

theorem vLtZero_iff (v : V) : vLtZero v = true ↔ ∃ q, v = some q ∧ q < 0 := by
  cases v with
  | none => simp [vLtZero]
  | some q => simp [vLtZero, qnum_neg_iff]

/-- The evaluator step fails with `'Division by zero'` exactly on a
division whose popped right operand is exactly zero. -/
theorem evalStep_div_iff (M : MathModel) (st : List V) (t : Token)
    (hwf : t.WF = true) :
    evalStep M st t = .error .divisionByZero ↔
      t.type = .op ∧ t.value = "/" ∧ ∃ a r, st = some 0 :: a :: r := by
  obtain ⟨ty, v⟩ := t
  cases ty <;> simp only [Token.WF] at hwf
  case number => simp [evalStep]
  case const => simp [evalStep]
  case paren => simp [evalStep]
  case fn =>
    have hv : v = "sin" ∨ v = "cos" ∨ v = "tan" ∨ v = "log" ∨ v = "ln" ∨ v = "sqrt" := by
      simpa [FUNCTIONS] using hwf
    rcases st with _ | ⟨a, r⟩
    · simp [evalStep]
    · rcases hv with rfl | rfl | rfl | rfl | rfl | rfl <;>
        simp only [evalStep] <;> split_ifs <;> simp
  case op =>
    have hv : v = "+" ∨ v = "-" ∨ v = "*" ∨ v = "/" ∨ v = "^" := by
      simpa using hwf
    rcases st with _ | ⟨b, st⟩
    · simp [evalStep]
    · rcases st with _ | ⟨a, r⟩
      · simp [evalStep]
      · rcases hv with rfl | rfl | rfl | rfl | rfl
        · simp [evalStep]
        · simp [evalStep]
        · simp [evalStep]
        · rw [show evalStep M (b :: a :: r) ⟨.op, "/"⟩ =
              (if vEqZero b then .error .divisionByZero
               else .ok (vDiv a b :: r)) from rfl]
          by_cases hb : vEqZero b = true
          · have hb0 : b = some 0 := (vEqZero_iff b).mp hb
            subst hb0
            rw [if_pos hb]
            simp
          · rw [if_neg hb]
            constructor
            · intro h; cases h
            · rintro ⟨-, -, a', r', heq⟩
              cases heq
              exact absurd ((vEqZero_iff (some 0)).mpr rfl) hb
        · simp [evalStep]

/-- The evaluator step fails with a domain error exactly when `log` or
`ln` pops a non-positive finite argument or `sqrt` pops a negative
finite argument (`NaN` passes every guard, as in JavaScript). -/
theorem evalStep_domain_iff (M : MathModel) (st : List V) (t : Token)
    (hwf : t.WF = true) :
    exErrP PError.isDomain (evalStep M st t) = true ↔
      t.type = .fn ∧ ∃ q r,
        ((t.value = "log" ∨ t.value = "ln") ∧ st = some q :: r ∧ q ≤ 0) ∨
        (t.value = "sqrt" ∧ st = some q :: r ∧ q < 0) := by
  obtain ⟨ty, v⟩ := t
  cases ty <;> simp only [Token.WF] at hwf
  case number => simp [evalStep, exErrP]
  case const => simp [evalStep, exErrP]
  case paren => simp [evalStep, exErrP]
  case op =>
    have hv : v = "+" ∨ v = "-" ∨ v = "*" ∨ v = "/" ∨ v = "^" := by
      simpa using hwf
    rcases st with _ | ⟨b, st⟩
    · simp [evalStep, exErrP, PError.isDomain]
    · rcases st with _ | ⟨a, r⟩
      · simp [evalStep, exErrP, PError.isDomain]
      · rcases hv with rfl | rfl | rfl | rfl | rfl
        · simp [evalStep, exErrP]
        · simp [evalStep, exErrP]
        · simp [evalStep, exErrP]
        · rw [show evalStep M (b :: a :: r) ⟨.op, "/"⟩ =
              (if vEqZero b then .error .divisionByZero
               else .ok (vDiv a b :: r)) from rfl]
          split_ifs <;> simp [exErrP, PError.isDomain]
        · simp [evalStep, exErrP]
  case fn =>
    have hv : v = "sin" ∨ v = "cos" ∨ v = "tan" ∨ v = "log" ∨ v = "ln" ∨ v = "sqrt" := by
      simpa [FUNCTIONS] using hwf
    rcases st with _ | ⟨a, r⟩
    · simp [evalStep, exErrP, PError.isDomain]
    · rcases hv with rfl | rfl | rfl | rfl | rfl | rfl
      · simp [evalStep, exErrP]
      · simp [evalStep, exErrP]
      · simp [evalStep, exErrP]
      · rw [show evalStep M (a :: r) ⟨.fn, "log"⟩ =
            (if vLeZero a then .error .logDomain
             else .ok (a.map M.log10 :: r)) from rfl]
        by_cases ha : vLeZero a = true
        · obtain ⟨q, rfl, hq⟩ := (vLeZero_iff a).mp ha
          rw [if_pos ha]
          simp [exErrP, PError.isDomain, hq]
        · rw [if_neg ha]
          simp only [exErrP]
          constructor
          · intro h; cases h
          · rintro ⟨-, q, r', h⟩
            rcases h with ⟨-, heq, hq⟩ | ⟨hval, -, -⟩
            · cases heq
              exact absurd ((vLeZero_iff (some q)).mpr ⟨q, rfl, hq⟩) ha
            · exact absurd hval (by decide)
      · rw [show evalStep M (a :: r) ⟨.fn, "ln"⟩ =
            (if vLeZero a then .error .lnDomain
             else .ok (a.map M.log :: r)) from rfl]
        by_cases ha : vLeZero a = true
        · obtain ⟨q, rfl, hq⟩ := (vLeZero_iff a).mp ha
          rw [if_pos ha]
          simp [exErrP, PError.isDomain, hq]
        · rw [if_neg ha]
          simp only [exErrP]
          constructor
          · intro h; cases h
          · rintro ⟨-, q, r', h⟩
            rcases h with ⟨-, heq, hq⟩ | ⟨hval, -, -⟩
            · cases heq
              exact absurd ((vLeZero_iff (some q)).mpr ⟨q, rfl, hq⟩) ha
            · exact absurd hval (by decide)
      · rw [show evalStep M (a :: r) ⟨.fn, "sqrt"⟩ =
            (if vLtZero a then .error .sqrtDomain
             else .ok (a.map M.sqrt :: r)) from rfl]
        by_cases ha : vLtZero a = true
        · obtain ⟨q, rfl, hq⟩ := (vLtZero_iff a).mp ha
          rw [if_pos ha]
          simp [exErrP, PError.isDomain, hq]
        · rw [if_neg ha]
          simp only [exErrP]
          constructor
          · intro h; cases h
          · rintro ⟨-, q, r', h⟩
            rcases h with ⟨hval, -, -⟩ | ⟨-, heq, hq⟩
            · exact absurd hval (by decide)
            · cases heq
              exact absurd ((vLtZero_iff (some q)).mpr ⟨q, rfl, hq⟩) ha

/-- An operator token over fewer than two stack values: both pops of an
exhausted JS array give `undefined`, caught as `'Invalid expression'`.
-/
theorem evalStep_op_underflow (M : MathModel) (st : List V) (t : Token)
    (hop : t.type = .op) (hlen : st.length < 2) :
    evalStep M st t = .error .invalidExpression := by
  obtain ⟨ty, v⟩ := t
  cases hop
  rcases st with _ | ⟨b, st⟩
  · rfl
  · rcases st with _ | ⟨a, r⟩
    · rfl
    · exact absurd hlen (by simp)

/-- A function token over an empty stack fails with
`'Invalid function call'`. -/
theorem evalStep_fn_underflow (M : MathModel) (t : Token)
    (hfn : t.type = .fn) :
    evalStep M ([] : List V) t = .error .invalidFunctionCall := by
  obtain ⟨ty, v⟩ := t
  cases hfn
  rfl

/-- A final stack of size other than one fails with
`'Invalid expression'` (lines 143-144). -/
theorem evaluateRPN_final_check (M : MathModel) (rpn : List Token)
    (st : List V) (hrun : runRPN M rpn [] = .ok st) (hlen : st.length ≠ 1) :
    Parser.evaluateRPN M rpn = .error .invalidExpression := by
  rw [Parser.evaluateRPN, hrun]
  rcases st with _ | ⟨v, st⟩
  · rfl
  · rcases st with _ | ⟨w, st⟩
    · simp at hlen
    · rfl

/-- `evaluateRPN` propagates every loop error unchanged; only the final
size check adds an `'Invalid expression'` of its own. -/
theorem evaluateRPN_error_iff (M : MathModel) (rpn : List Token)
    (err : PError) (hne : err ≠ .invalidExpression) :
    Parser.evaluateRPN M rpn = .error err ↔ runRPN M rpn [] = .error err := by
  rw [Parser.evaluateRPN]
  cases hr : runRPN M rpn [] with
  | error e => simp
  | ok st =>
    rcases st with _ | ⟨v, st⟩
    · simp
      intro h
      exact absurd h.symm hne
    · rcases st with _ | ⟨w, st⟩
      · simp
      · simp
        intro h
        exact absurd h.symm hne

/-- The loop fails with a given error exactly when some prefix of the
postfix sequence runs cleanly to a stack on which the next token's step
fails with that error. -/
theorem runRPN_error_iff (M : MathModel) (err : PError) :
    ∀ (rpn : List Token) (st0 : List V),
      runRPN M rpn st0 = .error err ↔
      ∃ pre t post stmid, rpn = pre ++ t :: post ∧
        runRPN M pre st0 = .ok stmid ∧ evalStep M stmid t = .error err := by
  intro rpn
  induction rpn with
  | nil =>
    intro st0
    constructor
    · intro h
      cases h
    · rintro ⟨pre, t, post, stmid, hsplit, -, -⟩
      cases pre <;> simp at hsplit
  | cons u us ih =>
    intro st0
    cases hs : evalStep M st0 u with
    | ok st1 =>
      rw [show runRPN M (u :: us) st0 = runRPN M us st1 from by simp [runRPN, hs]]
      rw [ih st1]
      constructor
      · rintro ⟨pre, t, post, stmid, hsplit, hrun, hstep⟩
        refine ⟨u :: pre, t, post, stmid, by simp [hsplit], ?_, hstep⟩
        rw [show runRPN M (u :: pre) st0 = runRPN M pre st1 from by simp [runRPN, hs]]
        exact hrun
      · rintro ⟨pre, t, post, stmid, hsplit, hrun, hstep⟩
        rcases pre with _ | ⟨u', pre'⟩
        · simp at hsplit
          obtain ⟨rfl, rfl⟩ := hsplit
          cases hrun
          rw [hs] at hstep
          cases hstep
        · simp at hsplit
          obtain ⟨rfl, rfl⟩ := hsplit
          rw [show runRPN M (u :: pre') st0 = runRPN M pre' st1 from by
              simp [runRPN, hs]] at hrun
          exact ⟨pre', t, post, stmid, rfl, hrun, hstep⟩
    | error e =>
      rw [show runRPN M (u :: us) st0 = .error e from by simp [runRPN, hs]]
      constructor
      · intro h
        injection h with h
        subst h
        exact ⟨[], u, us, st0, rfl, rfl, hs⟩
      · rintro ⟨pre, t, post, stmid, hsplit, hrun, hstep⟩
        rcases pre with _ | ⟨u', pre'⟩
        · simp at hsplit
          obtain ⟨rfl, rfl⟩ := hsplit
          cases hrun
          exact hs.symm.trans hstep
        · simp at hsplit
          obtain ⟨rfl, rfl⟩ := hsplit
          rw [show runRPN M (u :: pre') st0 = .error e from by
              simp [runRPN, hs]] at hrun
          cases hrun

/- ## Shunting-yard stack invariants -/

/-- The operator-branch loop pops a (parenthesis-free) prefix of the
stack to the output and pushes the incoming token on the remainder. -/
theorem rpnOp_spec (t : Token) :
    ∀ (ops o : List Token), ∃ popped rest,
      ops = popped ++ rest ∧ rpnOp t o ops = (o ++ popped, t :: rest) ∧
      ∀ p ∈ popped, p.type ≠ .paren := by
  intro ops
  induction ops with
  | nil => intro o; exact ⟨[], [], rfl, by simp [rpnOp], by simp⟩
  | cons top rest ih =>
    intro o
    by_cases hfn : top.type = .fn
    · obtain ⟨pp, rr, he, hr, hnp⟩ := ih (o ++ [top])
      refine ⟨top :: pp, rr, by simp [he], ?_, ?_⟩
      · rw [show rpnOp t o (top :: rest) = rpnOp t (o ++ [top]) rest from by
            simp [rpnOp, hfn]]
        rw [hr]
        simp
      · intro p hp
        rcases List.mem_cons.mp hp with rfl | hp
        · simp [hfn]
        · exact hnp p hp
    · by_cases hop : top.type = .op
      · by_cases hpops : popsBefore t.value top.value = true
        · obtain ⟨pp, rr, he, hr, hnp⟩ := ih (o ++ [top])
          refine ⟨top :: pp, rr, by simp [he], ?_, ?_⟩
          · rw [show rpnOp t o (top :: rest) = rpnOp t (o ++ [top]) rest from by
                simp [rpnOp, hfn, hop, hpops]]
            rw [hr]
            simp
          · intro p hp
            rcases List.mem_cons.mp hp with rfl | hp
            · simp [hop]
            · exact hnp p hp
        · exact ⟨[], top :: rest, rfl, by simp [rpnOp, hfn, hop, hpops], by simp⟩
      · exact ⟨[], top :: rest, rfl, by simp [rpnOp, hfn, hop], by simp⟩

/-- Closing a parenthesis over a stack that holds none fails. -/
theorem rpnClose_none :
    ∀ (ops o : List Token), (∀ p ∈ ops, p.type ≠ .paren) →
      rpnClose o ops = .error .mismatchedParens := by
  intro ops
  induction ops with
  | nil => intro o _; rfl
  | cons top rest ih =>
    intro o h
    have ht := h top (by simp)
    rw [show rpnClose o (top :: rest) = rpnClose (o ++ [top]) rest from by
        simp [rpnClose]
        intro hc
        exact absurd hc ht]
    exact ih (o ++ [top]) (fun p hp => h p (by simp [hp]))

/-- Closing a parenthesis over a stack that holds at least one: a
parenthesis-free prefix (plus possibly one function token) moves to the
output, exactly one parenthesis leaves the stack, and the invariant is
preserved. -/
theorem rpnClose_spec :
    ∀ (ops o : List Token), opsOk ops → pcount ops ≠ 0 →
      ∃ ext o' rest, rpnClose o ops = .ok (o', rest) ∧ o' = o ++ ext ∧
        (∀ p ∈ ext, p.type ≠ .paren) ∧ pcount rest + 1 = pcount ops ∧
        opsOk rest := by
  intro ops
  induction ops with
  | nil => intro o _ h; simp [pcount] at h
  | cons top rest ih =>
    intro o hok hpc
    by_cases hpar : top.type = .paren
    · have hval : top.value = "(" := hok top (by simp) hpar
      rcases rest with _ | ⟨f, rest'⟩
      · refine ⟨[], o, [], ?_, by simp, by simp,
          by simp [pcount, List.countP_cons, hpar], by intro p hp; simp at hp⟩
        simp [rpnClose, hpar, hval]
      · by_cases hf : f.type = .fn
        · refine ⟨[f], o ++ [f], rest', ?_, rfl, ?_, ?_, ?_⟩
          · simp [rpnClose, hpar, hval, hf]
          · intro p hp
            rcases List.mem_singleton.mp hp with rfl
            simp [hf]
          · simp [pcount, List.countP_cons, hpar, hf]
          · intro p hp
            exact hok p (by simp [hp])
        · refine ⟨[], o, f :: rest', ?_, by simp, by simp, ?_, ?_⟩
          · simp [rpnClose, hpar, hval, hf]
          · simp [pcount, List.countP_cons, hpar]
          · intro p hp
            exact hok p (by simp [hp])
    · have hstep : rpnClose o (top :: rest) = rpnClose (o ++ [top]) rest := by
        simp [rpnClose]
        intro hc
        exact absurd hc hpar
      have hpc' : pcount rest ≠ 0 := by
        simpa [pcount, List.countP_cons, hpar] using hpc
      obtain ⟨ext, o', rr, h1, h2, h3, h4, h5⟩ :=
        ih (o ++ [top]) (fun p hp hp2 => hok p (by simp [hp]) hp2) hpc'
      refine ⟨top :: ext, o', rr, hstep ▸ h1, by simp [h2], ?_, ?_, h5⟩
      · intro p hp
        rcases List.mem_cons.mp hp with rfl | hp
        · exact hpar
        · exact h3 p hp
      · rw [h4]
        simp [pcount, List.countP_cons, hpar]

/-- The final drain succeeds, appending only non-parenthesis tokens,
when no parenthesis remains on the stack. -/
theorem rpnFlush_ok :
    ∀ (ops o : List Token), pcount ops = 0 →
      ∃ ext, rpnFlush o ops = .ok (o ++ ext) ∧ ∀ p ∈ ext, p.type ≠ .paren := by
  intro ops
  induction ops with
  | nil => intro o _; exact ⟨[], by simp [rpnFlush], by simp⟩
  | cons top rest ih =>
    intro o h
    have hpar : top.type ≠ .paren := by
      intro hc
      simp [pcount, List.countP_cons, hc] at h
    have hrest : pcount rest = 0 := by
      simpa [pcount, List.countP_cons, hpar] using h
    obtain ⟨ext, he, hnp⟩ := ih (o ++ [top]) hrest
    refine ⟨top :: ext, ?_, ?_⟩
    · rw [show rpnFlush o (top :: rest) = rpnFlush (o ++ [top]) rest from by
          simp [rpnFlush, hpar]]
      rw [he]
      simp
    · intro p hp
      rcases List.mem_cons.mp hp with rfl | hp
      · exact hpar
      · exact hnp p hp

/-- The final drain fails when a parenthesis remains on the stack. -/
theorem rpnFlush_err :
    ∀ (ops o : List Token), pcount ops ≠ 0 →
      rpnFlush o ops = .error .mismatchedParens := by
  intro ops
  induction ops with
  | nil => intro o h; simp [pcount] at h
  | cons top rest ih =>
    intro o h
    by_cases hpar : top.type = .paren
    · simp [rpnFlush, hpar]
    · have hrest : pcount rest ≠ 0 := by
        simpa [pcount, List.countP_cons, hpar] using h
      rw [show rpnFlush o (top :: rest) = rpnFlush (o ++ [top]) rest from by
          simp [rpnFlush, hpar]]
      exact ih (o ++ [top]) hrest

/-- Main invariant of the token loop: with every stack parenthesis an
opening one, the loop succeeds exactly when the remaining tokens
balance against the current stack depth, and its only error is the
mismatched-parentheses one. -/
theorem rpnGo_spec :
    ∀ (ts ops o : List Token), opsOk ops →
      (exOk (rpnGo ts o ops) = balAux (pcount ops) ts) ∧
      (∀ e, rpnGo ts o ops = .error e → e = .mismatchedParens) := by
  intro ts
  induction ts with
  | nil =>
    intro ops o hok
    constructor
    · by_cases h : pcount ops = 0
      · obtain ⟨ext, he, -⟩ := rpnFlush_ok ops o h
        rw [show rpnGo [] o ops = rpnFlush o ops from rfl, he]
        simp [balAux, h, exOk]
      · rw [show rpnGo [] o ops = rpnFlush o ops from rfl, rpnFlush_err ops o h]
        simp [balAux, h, exOk]
    · intro e he
      rw [show rpnGo [] o ops = rpnFlush o ops from rfl] at he
      by_cases h : pcount ops = 0
      · obtain ⟨ext, hfe, -⟩ := rpnFlush_ok ops o h
        rw [hfe] at he
        cases he
      · rw [rpnFlush_err ops o h] at he
        injection he with h2
        exact h2.symm
  | cons t ts ih =>
    intro ops o hok
    obtain ⟨ty, v⟩ := t
    cases ty
    case number =>
      rw [show rpnGo (⟨.number, v⟩ :: ts) o ops = rpnGo ts (o ++ [⟨.number, v⟩]) ops from by
          simp [rpnGo]]
      rw [show balAux (pcount ops) (⟨.number, v⟩ :: ts) = balAux (pcount ops) ts from by
          simp [balAux, isOpenTok, isCloseTok]]
      exact ih ops (o ++ [⟨.number, v⟩]) hok
    case const =>
      rw [show rpnGo (⟨.const, v⟩ :: ts) o ops = rpnGo ts (o ++ [⟨.const, v⟩]) ops from by
          simp [rpnGo]]
      rw [show balAux (pcount ops) (⟨.const, v⟩ :: ts) = balAux (pcount ops) ts from by
          simp [balAux, isOpenTok, isCloseTok]]
      exact ih ops (o ++ [⟨.const, v⟩]) hok
    case fn =>
      rw [show rpnGo (⟨.fn, v⟩ :: ts) o ops = rpnGo ts o (⟨.fn, v⟩ :: ops) from by
          simp [rpnGo]]
      rw [show balAux (pcount ops) (⟨.fn, v⟩ :: ts) = balAux (pcount ops) ts from by
          simp [balAux, isOpenTok, isCloseTok]]
      have hok' : opsOk (⟨.fn, v⟩ :: ops) := by
        intro p hp hpar
        rcases List.mem_cons.mp hp with rfl | hp
        · cases hpar
        · exact hok p hp hpar
      have hcnt : pcount (⟨.fn, v⟩ :: ops) = pcount ops := by
        simp [pcount, List.countP_cons]
      rw [← hcnt]
      exact ih (⟨.fn, v⟩ :: ops) o hok'
    case op =>
      obtain ⟨popped, rest, hsplit, hr, hnp⟩ := rpnOp_spec ⟨.op, v⟩ ops o
      rw [show rpnGo (⟨.op, v⟩ :: ts) o ops = rpnGo ts (o ++ popped) (⟨.op, v⟩ :: rest) from by
          simp [rpnGo, hr]]
      rw [show balAux (pcount ops) (⟨.op, v⟩ :: ts) = balAux (pcount ops) ts from by
          simp [balAux, isOpenTok, isCloseTok]]
      have hok' : opsOk (⟨.op, v⟩ :: rest) := by
        intro p hp hpar
        rcases List.mem_cons.mp hp with rfl | hp
        · cases hpar
        · exact hok p (hsplit ▸ List.mem_append_right popped hp) hpar
      have hcnt : pcount (⟨.op, v⟩ :: rest) = pcount ops := by
        have hpz : pcount popped = 0 :=
          List.countP_eq_zero.mpr (fun p hp => by simpa using hnp p hp)
        unfold pcount at hpz ⊢
        rw [hsplit, List.countP_cons, List.countP_append, hpz]
        simp
      rw [← hcnt]
      exact ih (⟨.op, v⟩ :: rest) (o ++ popped) hok'
    case paren =>
      by_cases hv : v = "("
      · subst hv
        rw [show rpnGo (⟨.paren, "("⟩ :: ts) o ops = rpnGo ts o (⟨.paren, "("⟩ :: ops) from by
            simp [rpnGo]]
        rw [show balAux (pcount ops) (⟨.paren, "("⟩ :: ts) = balAux (pcount ops + 1) ts from by
            simp [balAux, isOpenTok]]
        have hok' : opsOk (⟨.paren, "("⟩ :: ops) := by
          intro p hp hpar
          rcases List.mem_cons.mp hp with rfl | hp
          · rfl
          · exact hok p hp hpar
        have hcnt : pcount (⟨.paren, "("⟩ :: ops) = pcount ops + 1 := by
          simp [pcount, List.countP_cons]
        rw [← hcnt]
        exact ih (⟨.paren, "("⟩ :: ops) o hok'
      · have hbal : balAux (pcount ops) (⟨.paren, v⟩ :: ts) =
            (decide (0 < pcount ops) && balAux (pcount ops - 1) ts) := by
          simp [balAux, isOpenTok, isCloseTok, hv]
        by_cases hpc : pcount ops = 0
        · have hnone : ∀ p ∈ ops, p.type ≠ .paren := by
            intro p hp hpar
            have := List.countP_eq_zero.mp hpc p hp
            simp [hpar] at this
          rw [show rpnGo (⟨.paren, v⟩ :: ts) o ops = .error .mismatchedParens from by
              simp [rpnGo, hv, rpnClose_none ops o hnone]]
          constructor
          · rw [hbal]
            simp [hpc, exOk]
          · intro e he
            injection he with h2
            exact h2.symm
        · obtain ⟨ext, o', rest, h1, h2, h3, h4, h5⟩ := rpnClose_spec ops o hok hpc
          rw [show rpnGo (⟨.paren, v⟩ :: ts) o ops = rpnGo ts o' rest from by
              simp [rpnGo, hv, h1]]
          rw [hbal]
          have : pcount rest = pcount ops - 1 := by omega
          rw [show (decide (0 < pcount ops) && balAux (pcount ops - 1) ts) =
              balAux (pcount rest) ts from by
            rw [this]
            simp [Nat.pos_of_ne_zero hpc]]
          exact ih rest o' h5

/-- Every token in a successful `rpnGo` output is a non-parenthesis
token, provided the accumulated output and the stack invariant say so.
-/
theorem rpnGo_noParen :
    ∀ (ts ops o out : List Token), opsOk ops →
      (∀ p ∈ o, p.type ≠ .paren) → rpnGo ts o ops = .ok out →
      ∀ p ∈ out, p.type ≠ .paren := by
  intro ts
  induction ts with
  | nil =>
    intro ops o out hok ho hrun
    rw [show rpnGo [] o ops = rpnFlush o ops from rfl] at hrun
    by_cases h : pcount ops = 0
    · obtain ⟨ext, he, hnp⟩ := rpnFlush_ok ops o h
      rw [he] at hrun
      injection hrun with h2
      subst h2
      intro p hp
      rcases List.mem_append.mp hp with hp | hp
      · exact ho p hp
      · exact hnp p hp
    · rw [rpnFlush_err ops o h] at hrun
      cases hrun
  | cons t ts ih =>
    intro ops o out hok ho hrun
    obtain ⟨ty, v⟩ := t
    cases ty
    case number =>
      rw [show rpnGo (⟨.number, v⟩ :: ts) o ops = rpnGo ts (o ++ [⟨.number, v⟩]) ops from by
          simp [rpnGo]] at hrun
      refine ih ops (o ++ [⟨.number, v⟩]) out hok ?_ hrun
      intro p hp
      rcases List.mem_append.mp hp with hp | hp
      · exact ho p hp
      · rcases List.mem_singleton.mp hp with rfl
        simp
    case const =>
      rw [show rpnGo (⟨.const, v⟩ :: ts) o ops = rpnGo ts (o ++ [⟨.const, v⟩]) ops from by
          simp [rpnGo]] at hrun
      refine ih ops (o ++ [⟨.const, v⟩]) out hok ?_ hrun
      intro p hp
      rcases List.mem_append.mp hp with hp | hp
      · exact ho p hp
      · rcases List.mem_singleton.mp hp with rfl
        simp
    case fn =>
      rw [show rpnGo (⟨.fn, v⟩ :: ts) o ops = rpnGo ts o (⟨.fn, v⟩ :: ops) from by
          simp [rpnGo]] at hrun
      refine ih (⟨.fn, v⟩ :: ops) o out ?_ ho hrun
      intro p hp hpar
      rcases List.mem_cons.mp hp with rfl | hp
      · cases hpar
      · exact hok p hp hpar
    case op =>
      obtain ⟨popped, rest, hsplit, hr, hnp⟩ := rpnOp_spec ⟨.op, v⟩ ops o
      rw [show rpnGo (⟨.op, v⟩ :: ts) o ops = rpnGo ts (o ++ popped) (⟨.op, v⟩ :: rest) from by
          simp [rpnGo, hr]] at hrun
      refine ih (⟨.op, v⟩ :: rest) (o ++ popped) out ?_ ?_ hrun
      · intro p hp hpar
        rcases List.mem_cons.mp hp with rfl | hp
        · cases hpar
        · exact hok p (hsplit ▸ List.mem_append_right popped hp) hpar
      · intro p hp
        rcases List.mem_append.mp hp with hp | hp
        · exact ho p hp
        · exact hnp p hp
    case paren =>
      by_cases hv : v = "("
      · subst hv
        rw [show rpnGo (⟨.paren, "("⟩ :: ts) o ops = rpnGo ts o (⟨.paren, "("⟩ :: ops) from by
            simp [rpnGo]] at hrun
        refine ih (⟨.paren, "("⟩ :: ops) o out ?_ ho hrun
        intro p hp hpar
        rcases List.mem_cons.mp hp with rfl | hp
        · rfl
        · exact hok p hp hpar
      · by_cases hpc : pcount ops = 0
        · have hnone : ∀ p ∈ ops, p.type ≠ .paren := by
            intro p hp hpar
            have := List.countP_eq_zero.mp hpc p hp
            simp [hpar] at this
          rw [show rpnGo (⟨.paren, v⟩ :: ts) o ops = .error .mismatchedParens from by
              simp [rpnGo, hv, rpnClose_none ops o hnone]] at hrun
          cases hrun
        · obtain ⟨ext, o', rest, h1, h2, h3, h4, h5⟩ := rpnClose_spec ops o hok hpc
          rw [show rpnGo (⟨.paren, v⟩ :: ts) o ops = rpnGo ts o' rest from by
              simp [rpnGo, hv, h1]] at hrun
          refine ih rest o' out h5 ?_ hrun
          intro p hp
          rw [h2] at hp
          rcases List.mem_append.mp hp with hp | hp
          · exact ho p hp
          · exact h3 p hp


/-- The outcome of the cons-and-continue pattern of the scanner has the
same success and error classification as its recursive call. -/
theorem consStep_class (tok : Token) (sub : Except PError (List Token)) :
    exOk (match sub with
          | .ok ts => Except.ok (tok :: ts)
          | .error e => Except.error e) = exOk sub ∧
    exErrP PError.isLex
        (match sub with
         | .ok ts => Except.ok (tok :: ts)
         | .error e => Except.error e) = exErrP PError.isLex sub := by
  cases sub with
  | ok ts => exact ⟨rfl, rfl⟩
  | error e => exact ⟨rfl, rfl⟩

/-- With adequate fuel, the scanner fails exactly on the code's
rejection condition `jsBadFuel`, and when it fails the error is one of
the three lexical errors. -/
theorem tokFuel_lex_spec :
    ∀ (f : ℕ) (cs : List Char), cs.length < f →
      exOk (tokFuel f cs) = !jsBadFuel f cs ∧
      exErrP PError.isLex (tokFuel f cs) = jsBadFuel f cs := by
  intro f
  induction f with
  | zero => intro cs h; exact absurd h (Nat.not_lt_zero _)
  | succ f ih =>
    intro cs h
    cases cs with
    | nil => exact ⟨rfl, rfl⟩
    | cons c cs =>
      have hcs : cs.length < f := Nat.lt_of_succ_lt_succ h
      have hnum : (cs.dropWhile isNumChar).length < f :=
        Nat.lt_of_le_of_lt (List.Sublist.length_le (List.dropWhile_sublist _)) hcs
      have halnum : (cs.dropWhile isAlnumChar).length < f :=
        Nat.lt_of_le_of_lt (List.Sublist.length_le (List.dropWhile_sublist _)) hcs
      by_cases h1 : isNumChar c = true
      · by_cases h2 : countDots (c :: cs.takeWhile isNumChar) ≥ 2
        · simp only [tokFuel, jsBadFuel, if_pos h1, if_pos h2]
          rw [show decide (countDots (c :: cs.takeWhile isNumChar) ≥ 2) = true from by
              simpa using h2]
          simp [exOk, exErrP, PError.isLex]
        · obtain ⟨ihok, iherr⟩ := ih _ hnum
          obtain ⟨hcok, hcerr⟩ :=
            consStep_class ⟨.number, String.mk (c :: cs.takeWhile isNumChar)⟩
              (tokFuel f (cs.dropWhile isNumChar))
          simp only [tokFuel, jsBadFuel, if_pos h1, if_neg h2]
          rw [show decide (countDots (c :: cs.takeWhile isNumChar) ≥ 2) = false from by
              simpa using h2]
          rw [Bool.false_or]
          exact ⟨hcok.trans ihok, hcerr.trans iherr⟩
      · by_cases h3 : isAlphaChar c = true
        · by_cases hf : FUNCTIONS.contains (String.mk (c :: cs.takeWhile isAlnumChar)) = true
          · obtain ⟨ihok, iherr⟩ := ih _ halnum
            obtain ⟨hcok, hcerr⟩ :=
              consStep_class ⟨.fn, String.mk (c :: cs.takeWhile isAlnumChar)⟩
                (tokFuel f (cs.dropWhile isAlnumChar))
            simp only [tokFuel, jsBadFuel, if_neg h1, if_pos h3, if_pos hf]
            rw [hf]
            rw [show (!(true ||
                jsInConstants (String.mk (c :: cs.takeWhile isAlnumChar)))) = false from by simp]
            rw [Bool.false_or]
            exact ⟨hcok.trans ihok, hcerr.trans iherr⟩
          · by_cases hc : jsInConstants (String.mk (c :: cs.takeWhile isAlnumChar)) = true
            · obtain ⟨ihok, iherr⟩ := ih _ halnum
              obtain ⟨hcok, hcerr⟩ :=
                consStep_class ⟨.const, String.mk (c :: cs.takeWhile isAlnumChar)⟩
                  (tokFuel f (cs.dropWhile isAlnumChar))
              simp only [tokFuel, jsBadFuel, if_neg h1, if_pos h3, if_neg hf, if_pos hc]
              rw [show FUNCTIONS.contains (String.mk (c :: cs.takeWhile isAlnumChar)) = false from by
                  simpa using hf]
              rw [hc]
              rw [show (!(false || true)) = false from by simp]
              rw [Bool.false_or]
              exact ⟨hcok.trans ihok, hcerr.trans iherr⟩
            · simp only [tokFuel, jsBadFuel, if_neg h1, if_pos h3, if_neg hf, if_neg hc]
              rw [show FUNCTIONS.contains (String.mk (c :: cs.takeWhile isAlnumChar)) = false from by
                  simpa using hf]
              rw [show jsInConstants (String.mk (c :: cs.takeWhile isAlnumChar)) = false from by
                  simpa using hc]
              simp [exOk, exErrP, PError.isLex]
        · by_cases h4 : (c = '(' || c = ')') = true
          · obtain ⟨ihok, iherr⟩ := ih _ hcs
            obtain ⟨hcok, hcerr⟩ :=
              consStep_class ⟨.paren, String.mk [c]⟩ (tokFuel f cs)
            simp only [tokFuel, jsBadFuel, if_neg h1, if_neg h3, if_pos h4]
            exact ⟨hcok.trans ihok, hcerr.trans iherr⟩
          · by_cases h5 : isOpChar c = true
            · obtain ⟨ihok, iherr⟩ := ih _ hcs
              obtain ⟨hcok, hcerr⟩ :=
                consStep_class ⟨.op, String.mk [c]⟩ (tokFuel f cs)
              simp only [tokFuel, jsBadFuel, if_neg h1, if_neg h3, if_neg h4, if_pos h5]
              exact ⟨hcok.trans ihok, hcerr.trans iherr⟩
            · simp only [tokFuel, jsBadFuel, if_neg h1, if_neg h3, if_neg h4, if_neg h5]
              simp [exOk, exErrP, PError.isLex]


/- ## Claim theorems -/

/-- C1: Evaluation of infix text respects the fixed
precedence/associativity table (`+ -` precedence 1 left, `* /`
precedence 2 left, `^` precedence 3 right): `evaluate("2^3^2")` returns
512 (right-grouped as `2^(3^2)`), `evaluate("8-3-2")` returns 3
(left-grouped), `evaluate("2+3*4")` returns 14, and
`evaluate("(2+3)*4")` returns 20. -/
theorem claim_C1_precedence_associativity :
    PRECEDENCE "+" = some 1 ∧ PRECEDENCE "-" = some 1 ∧
    PRECEDENCE "*" = some 2 ∧ PRECEDENCE "/" = some 2 ∧
    PRECEDENCE "^" = some 3 ∧
    RIGHT_ASSOC "^" = true ∧ RIGHT_ASSOC "+" = false ∧
    RIGHT_ASSOC "-" = false ∧ RIGHT_ASSOC "*" = false ∧
    RIGHT_ASSOC "/" = false ∧
    Parser.evaluate M0 "2^3^2" = .ok (some 512) ∧
    Parser.evaluate M0 "8-3-2" = .ok (some 3) ∧
    Parser.evaluate M0 "2+3*4" = .ok (some 14) ∧
    Parser.evaluate M0 "(2+3)*4" = .ok (some 20) := by
  decide

/-- C2: Over every postfix token sequence (of data-model tokens), the
evaluator fails with `DivisionByZero` exactly when the right operand
popped for `/` is `0` (so `"5/0"` fails instead of silently returning
`Infinity`); it fails with `DomainError` exactly when `log` or `ln`
receives a non-positive argument or `sqrt` a negative one (so
`"sqrt(-1)"`, `"log(0)"`, `"ln(-5)"` each fail — the first and last
with the stack-arity `EvalError`, since their `-` is binary and their
postfix form is malformed, and `"log(0)"` with the `log` domain error);
and it fails with `EvalError` when an operator or function pops from a
too-small stack or the final stack size is not exactly 1.  The step
characterizations lift to whole runs: the pipeline propagates a loop
error unchanged, and a run fails with a given error exactly when some
clean prefix reaches a stack on which the next token's step so fails.
-/
theorem claim_C2_evaluator_errors :
    (∀ (M : MathModel) (st : List V) (t : Token), t.WF = true →
      (evalStep M st t = .error .divisionByZero ↔
        t.type = .op ∧ t.value = "/" ∧ ∃ a r, st = some 0 :: a :: r)) ∧
    (∀ (M : MathModel) (st : List V) (t : Token), t.WF = true →
      (exErrP PError.isDomain (evalStep M st t) = true ↔
        t.type = .fn ∧ ∃ q r,
          ((t.value = "log" ∨ t.value = "ln") ∧ st = some q :: r ∧ q ≤ 0) ∨
          (t.value = "sqrt" ∧ st = some q :: r ∧ q < 0))) ∧
    (∀ (M : MathModel) (rpn : List Token) (err : PError),
      err ≠ .invalidExpression →
      (Parser.evaluateRPN M rpn = .error err ↔ runRPN M rpn [] = .error err)) ∧
    (∀ (M : MathModel) (err : PError) (rpn : List Token) (st0 : List V),
      runRPN M rpn st0 = .error err ↔
      ∃ pre t post stmid, rpn = pre ++ t :: post ∧
        runRPN M pre st0 = .ok stmid ∧ evalStep M stmid t = .error err) ∧
    (∀ (M : MathModel) (st : List V) (t : Token), t.type = .op →
      st.length < 2 → evalStep M st t = .error .invalidExpression) ∧
    (∀ (M : MathModel) (t : Token), t.type = .fn →
      evalStep M ([] : List V) t = .error .invalidFunctionCall) ∧
    (∀ (M : MathModel) (rpn : List Token) (st : List V),
      runRPN M rpn [] = .ok st → st.length ≠ 1 →
      Parser.evaluateRPN M rpn = .error .invalidExpression) ∧
    PError.invalidExpression.isEval = true ∧
    PError.invalidFunctionCall.isEval = true ∧
    Parser.evaluate M0 "5/0" = .error .divisionByZero ∧
    Parser.evaluate M0 "log(0)" = .error .logDomain ∧
    PError.logDomain.isDomain = true ∧
    Parser.evaluate M0 "sqrt(-1)" = .error .invalidExpression ∧
    Parser.evaluate M0 "ln(-5)" = .error .invalidExpression := by
  refine ⟨evalStep_div_iff, evalStep_domain_iff,
    fun M rpn err h => evaluateRPN_error_iff M rpn err h,
    fun M err rpn st0 => runRPN_error_iff M err rpn st0,
    fun M st t h1 h2 => evalStep_op_underflow M st t h1 h2,
    fun M t h => evalStep_fn_underflow M t h,
    fun M rpn st h1 h2 => evaluateRPN_final_check M rpn st h1 h2,
    rfl, rfl, ?_, ?_, rfl, ?_, ?_⟩ <;> decide

/-- C2 witness: the division-by-zero characterization applied to the
concrete step `/` over the stack `[0, 5]`. -/
theorem claim_C2_witness :
    evalStep M0 [some 0, some 5] ⟨.op, "/"⟩ = .error .divisionByZero :=
  (claim_C2_evaluator_errors.1 M0 [some 0, some 5] ⟨.op, "/"⟩ (by decide)).mpr
    ⟨rfl, rfl, some 5, [], rfl⟩

/-- C3: Whenever the pipeline fails, `Calculator.evaluate` leaves the
buffer unchanged and invokes the display callback with the fixed prefix
`"Error: "` followed by the failure description; with buffer `"5/0"`, a
subsequent `backspace()` still removes the last character of `"5/0"`.
-/
theorem claim_C3_failure_preserves_buffer :
    (∀ (M : MathModel) (st : Calculator) (e : PError),
      Parser.evaluate M (Calculator.display st.input) = .error e →
      Calculator.evaluate M st = (st, some ("Error: " ++ e.message))) ∧
    Calculator.evaluate M0 ⟨"5/0"⟩ = (⟨"5/0"⟩, some "Error: Division by zero") ∧
    Calculator.backspace ⟨"5/0"⟩ = (⟨"5/"⟩, some "5/") := by
  refine ⟨?_, ?_, ?_⟩
  · intro M st e h
    unfold Calculator.evaluate
    rw [h]
  · decide
  · decide

/-- C3 witness: the failure-path theorem applied to the buffer `"5/0"`
under the default math model. -/
theorem claim_C3_witness :
    Calculator.evaluate M0 ⟨"5/0"⟩ =
      (⟨"5/0"⟩, some ("Error: " ++ PError.message .divisionByZero)) :=
  claim_C3_failure_preserves_buffer.1 M0 ⟨"5/0"⟩ .divisionByZero (by decide)

/-- C4 (bug evidence): the successful evaluation of `"10*10"` produces
the finite value 100, but `format 100 = "1"` — the second substitution
`\.?0+$` strips the significant integer zeros — so re-tokenizing the
formatted string yields 1 ≠ 100 and the formatted string is not the
shortest 12-significant-digit decimal of 100.  The `"1/3"` example of
the claim does hold. -/
theorem claim_C4_format_roundtrip_bug :
    Parser.evaluate M0 "10*10" = .ok (some 100) ∧
    Calculator.format 100 = "1" ∧
    Parser.tokenize "1" = .ok [⟨.number, "1"⟩] ∧
    parseNum "1" = some 1 ∧
    (1 : ℚ) ≠ 100 ∧
    Calculator.format (mkRat 1 3) = "0.333333333333" ∧
    Parser.evaluate M0 "1/3" = .ok (some (mkRat 1 3)) := by
  decide

/-- C5: `toRPN` fails (and fails with the mismatched-parentheses error)
exactly when the parenthesis nesting of its input is unbalanced; in
particular the token sequences of `"(1+2"` and `"1+2)"` fail. -/
theorem claim_C5_mismatched_parens :
    (∀ ts : List Token,
      (Parser.toRPN ts = .error .mismatchedParens ↔ balanced ts = false) ∧
      exOk (Parser.toRPN ts) = balanced ts) ∧
    Parser.evaluate M0 "(1+2" = .error .mismatchedParens ∧
    Parser.evaluate M0 "1+2)" = .error .mismatchedParens ∧
    Parser.tokenize "(1+2" =
      .ok [⟨.paren, "("⟩, ⟨.number, "1"⟩, ⟨.op, "+"⟩, ⟨.number, "2"⟩] ∧
    Parser.toRPN [⟨.paren, "("⟩, ⟨.number, "1"⟩, ⟨.op, "+"⟩, ⟨.number, "2"⟩] =
      .error .mismatchedParens := by
  refine ⟨?_, by decide, by decide, by decide, by decide⟩
  intro ts
  obtain ⟨hok, herr⟩ := rpnGo_spec ts [] [] (fun p hp => absurd hp (List.not_mem_nil p))
  have htr : Parser.toRPN ts = rpnGo ts [] [] := rfl
  have hbal : balanced ts = balAux (pcount []) ts := rfl
  refine ⟨⟨?_, ?_⟩, ?_⟩
  · intro h
    rw [hbal, ← hok]
    rw [htr] at h
    rw [h]
    rfl
  · intro h
    rw [htr]
    cases hgo : rpnGo ts [] [] with
    | ok out =>
      rw [hbal, ← hok, hgo] at h
      simp [exOk] at h
    | error e =>
      rw [herr e hgo]
  · rw [htr, hbal]
    exact hok

/-- C5 witness: the characterization applied to the unbalanced
single-token sequence `[")"]`. -/
theorem claim_C5_witness :
    Parser.toRPN [⟨.paren, ")"⟩] = .error .mismatchedParens :=
  ((claim_C5_mismatched_parens.1 [⟨.paren, ")"⟩]).1).mpr (by decide)

/-- C6 (bug evidence): the claim requires `tokenize` to fail with a
`LexError` exactly when (among the other conditions) an identifier run
is neither a recognized function nor a recognized constant name — and
`"toString"` is neither (`FUNCTIONS` does not contain it, `CONSTANTS`
has no such entry, and the claimed rejection condition `lexBad` holds
for it) — yet the code accepts it: the `in` operator of line 41
consults the prototype chain, so `tokenize("toString")` succeeds with a
Constant token.  What the code does implement, proved here for every
string, is the same characterization with the inherited
`Object.prototype` names additionally admitted (`jsLexBad`), every
failure being a lexical error.  The claim's own examples hold:
`"foo(1)"` fails with `Unknown identifier` and `""` tokenizes to the
empty sequence. -/
theorem claim_C6_in_operator_bug :
    Parser.tokenize "toString" = .ok [⟨.const, "toString"⟩] ∧
    FUNCTIONS.contains "toString" = false ∧
    (CONSTANTS "toString").isSome = false ∧
    lexBad (stripWS "toString") = true ∧
    (∀ s : String,
      exOk (Parser.tokenize s) = !jsLexBad (stripWS s) ∧
      exErrP PError.isLex (Parser.tokenize s) = jsLexBad (stripWS s)) ∧
    Parser.tokenize "foo(1)" = .error (.unknownIdentifier "foo") ∧
    (PError.unknownIdentifier "foo").isLex = true ∧
    Parser.tokenize "" = .ok [] := by
  refine ⟨by decide, by decide, by decide, by decide, ?_, by decide, rfl, by decide⟩
  intro s
  exact tokFuel_lex_spec ((stripWS s).length + 1) (stripWS s) (Nat.lt_succ_self _)

/-- C7: a successful `toRPN` output contains no parenthesis token. -/
theorem claim_C7_no_parens_in_output :
    ∀ (ts out : List Token), Parser.toRPN ts = .ok out → noParen out = true := by
  intro ts out h
  have hnp := rpnGo_noParen ts [] [] out
    (fun p hp => absurd hp (List.not_mem_nil p))
    (fun p hp => absurd hp (List.not_mem_nil p)) h
  rw [noParen, List.all_eq_true]
  intro p hp
  simpa using hnp p hp

/-- C7 witness: applied to the tokens of `"(2+3)*4"` and its computed
postfix output. -/
theorem claim_C7_witness :
    noParen [⟨.number, "2"⟩, ⟨.number, "3"⟩, ⟨.op, "+"⟩,
      ⟨.number, "4"⟩, ⟨.op, "*"⟩] = true :=
  claim_C7_no_parens_in_output
    [⟨.paren, "("⟩, ⟨.number, "2"⟩, ⟨.op, "+"⟩, ⟨.number, "3"⟩,
      ⟨.paren, ")"⟩, ⟨.op, "*"⟩, ⟨.number, "4"⟩] _ (by decide)

/-- C8 (bug evidence): from any session state, after `clear()`,
`append("5")`, `backspace()` the buffer is empty, the substituted
literal `"0"` evaluates to 0 — but the final `evaluate()` invokes the
display callback with the empty string (because `format 0 = ""`), not
with `"0"` as the claim states. -/
theorem claim_C8_empty_evaluate_bug :
    ∀ st : Calculator,
      (Calculator.backspace (Calculator.append (Calculator.clear st).1 "5").1).1 = ⟨""⟩ ∧
      Parser.evaluate M0 "0" = .ok (some 0) ∧
      Calculator.format 0 = "" ∧
      Calculator.evaluate M0
        (Calculator.backspace (Calculator.append (Calculator.clear st).1 "5").1).1 =
        (⟨""⟩, some "") ∧
      (some "" : Option String) ≠ some "0" := by
  intro st
  have h1 : (Calculator.clear st).1 = ⟨""⟩ := rfl
  rw [h1]
  decide

/-- C9: there is no unary minus — an operator token over fewer than two
stack values always fails with the `'Invalid expression'` `EvalError`,
so `"-5"` fails instead of evaluating to a negated operand. -/
theorem claim_C9_no_unary_minus :
    (∀ (M : MathModel) (st : List V) (v : String), st.length < 2 →
      evalStep M st ⟨.op, v⟩ = .error .invalidExpression) ∧
    Parser.evaluate M0 "-5" = .error .invalidExpression ∧
    PError.invalidExpression.message = "Invalid expression" := by
  refine ⟨fun M st v h => evalStep_op_underflow M st ⟨.op, v⟩ rfl h, by decide, rfl⟩

/-- C9 witness: an operator over the singleton stack `[5]`. -/
theorem claim_C9_witness :
    evalStep M0 [some 5] ⟨.op, "-"⟩ = .error .invalidExpression :=
  claim_C9_no_unary_minus.1 M0 [some 5] "-" (by decide)

/-- C10: the tokenizer accepts a numeric literal without digits —
`tokenize(".")` succeeds, returning one `Number` token with text `"."`,
whose numeric value is `NaN` (the whole pipeline returns the non-finite
value), rather than raising a `LexError`. -/
theorem claim_C10_dot_token :
    Parser.tokenize "." = .ok [⟨.number, "."⟩] ∧
    countDots ['.'] = 1 ∧
    parseNum "." = none ∧
    Parser.evaluate M0 "." = .ok none := by
  decide

end Calc
